import Mathlib

/-!
Verification of the mudlark cross-reference resolution engine.

This file gives a shallow embedding of the Go program in `main.go` (the most
evolved version of the tool: the one that builds a `linkResult` / `issueResult`
tree).  Remote services (the GitHub and Jira APIs) are modelled as explicit
environments of functions returning `Except String`, matching the
`(value, error)` pairs of the Go client calls.  Go maps whose entries are only
looked up and overwritten are modelled as association lists with
lookup/overwrite operations.  The pagination of `PullRequests.List` is
modelled by the finite list of pages the remote serves, consumed in order
exactly as the Go loop follows `response.NextPage` until it is zero.

Machine integers (`int` ids, pull-request numbers) are modelled as `Int`; the
only place Go integer width matters is `strconv.Atoi`, whose 64-bit range
check is modelled explicitly.
-/

/-! ## The pull request URL pattern

`pullRequestURLPattern` in the source is the compiled regular expression
`https://github.com/(?P<org>[^/]+)/(?P<repo>[^/]+)/pull/(?P<id>\d+)`.
Because the character classes `[^/]+` and `\d+` cannot cross the literal
delimiters that follow them, matching this pattern at a position is
deterministic maximal-munch: take the literal prefix, the maximal nonempty
run of non-slash characters, a slash, another maximal nonempty run of
non-slash characters, the literal `/pull/`, and a maximal nonempty digit run.
`FindAllString` scans left to right emitting successive non-overlapping
matches; `FindStringSubmatch` returns the first match with its groups.
-/

/-- Split a character list at the first character failing the predicate,
returning the maximal satisfying prefix and the remainder. -/
def spanP (p : Char → Bool) : List Char → List Char × List Char
  | [] => ([], [])
  | c :: cs =>
    if p c then
      let r := spanP p cs
      (c :: r.1, r.2)
    else ([], c :: cs)

/-- Match a literal character sequence at the front of the input, returning
the remainder on success. -/
def stripLit : List Char → List Char → Option (List Char)
  | [], cs => some cs
  | _ :: _, [] => none
  | p :: ps, c :: cs => if c == p then stripLit ps cs else none

/-- The literal prefix of the pattern. -/
def httpsGithubCom : List Char := "https://github.com/".toList

/-- The literal middle segment of the pattern. -/
def slashPullSlash : List Char := "/pull/".toList

/-- Characters allowed in the org and repo groups (the class of non-slash). -/
def notSlash (c : Char) : Bool := c != '/'

/-- The character sequence of a full pattern match with the given group
contents, nested to mirror the way a match decomposes. -/
def matchChars (o r i : List Char) : List Char :=
  httpsGithubCom ++ (o ++ ('/' :: (r ++ (slashPullSlash ++ i))))

/-- Try to match the pull-request URL pattern at the start of the input.
Returns the three submatch groups (org, repo, id digits) and the remainder
after the match. -/
def matchPRURLAt (cs : List Char) : Option (List Char × List Char × List Char × List Char) :=
  match stripLit httpsGithubCom cs with
  | none => none
  | some r1 =>
    let so := spanP notSlash r1
    if so.1.isEmpty then none
    else
      match so.2 with
      | [] => none
      | c2 :: r3 =>
        if c2 = '/' then
          let sr := spanP notSlash r3
          if sr.1.isEmpty then none
          else
            match stripLit slashPullSlash sr.2 with
            | none => none
            | some r5 =>
              let si := spanP Char.isDigit r5
              if si.1.isEmpty then none
              else some (so.1, sr.1, si.1, si.2)
        else none

/-- The scan behind `pullRequestURLPattern.FindAllString(s, -1)`: successive
non-overlapping matches, left to right.  Every step consumes at least one
character of the input, so fuel equal to the input length is exhaustive. -/
def findAllPRURLs : Nat → List Char → List String
  | 0, _ => []
  | _ + 1, [] => []
  | fuel + 1, c :: cs =>
    match matchPRURLAt (c :: cs) with
    | some (o, r, i, rest) => String.mk (matchChars o r i) :: findAllPRURLs fuel rest
    | none => findAllPRURLs fuel cs

/-- All pattern matches in a string, in order. -/
def prURLMatches (s : String) : List String :=
  findAllPRURLs s.toList.length s.toList

/-- The scan behind `pullRequestURLPattern.FindStringSubmatch(s)`: the groups
of the first match, or `none` when the pattern does not occur. -/
def findFirstSubmatch : Nat → List Char → Option (String × String × String)
  | 0, _ => none
  | _ + 1, [] => none
  | fuel + 1, c :: cs =>
    match matchPRURLAt (c :: cs) with
    | some (o, r, i, _) => some (String.mk o, String.mk r, String.mk i)
    | none => findFirstSubmatch fuel cs

/-! ## Go-side primitive operations -/

/-- Outcome of a Go computation: a value, a returned `error`, or a runtime
crash (the Go program indexing a nil submatch slice, or unbounded recursion).
-/
inductive GoValue (α : Type) where
  | ok : α → GoValue α
  | err : String → GoValue α
  | crash : String → GoValue α
deriving DecidableEq

/-- Whether an outcome is a runtime crash. -/
def GoValue.isCrash {α : Type} : GoValue α → Bool
  | GoValue.crash _ => true
  | _ => false

/-- Render a string the way Go's `%q` verb does for the strings appearing in
this program (no characters needing escapes occur in practice). -/
def quoted (s : String) : String := "\"" ++ s ++ "\""

/-- The value of a nonempty digit string, most significant digit first. -/
def digitsToNat : List Char → Nat → Nat
  | [], acc => acc
  | c :: cs, acc => digitsToNat cs (acc * 10 + (c.toNat - 48))

/-- The largest value of Go's 64-bit `int`. -/
def maxGoInt : Nat := 9223372036854775807

/-- `strconv.Atoi`, restricted to the behavior exercised by this program:
the inputs it receives are always the `\d+` submatch, i.e. nonempty digit
strings, on which `Atoi` succeeds unless the value overflows a 64-bit `int`.
Non-digit input takes the syntax-error branch as `Atoi` would. -/
def goAtoi (s : String) : Except String Int :=
  if s.toList.isEmpty then Except.error "invalid syntax"
  else if s.toList.all Char.isDigit then
    let n := digitsToNat s.toList 0
    if n ≤ maxGoInt then Except.ok (Int.ofNat n) else Except.error "value out of range"
  else Except.error "invalid syntax"

/-- `parsePRURL` from the source.  `FindStringSubmatch` returns nil when the
pattern does not occur, and the source indexes `match[1]` without a nil
check, so that case is a runtime crash.  Otherwise the id group is converted
with `strconv.Atoi`, whose failure is wrapped and returned as an error. -/
def parsePRURL (url : String) : GoValue (String × String × Int) :=
  match findFirstSubmatch url.toList.length url.toList with
  | none => GoValue.crash "runtime error: index out of range"
  | some (org, repo, idStr) =>
    match goAtoi idStr with
    | Except.error e =>
      GoValue.err ("could not convert pull request id " ++ quoted idStr ++ " to integer: " ++ e)
    | Except.ok id => GoValue.ok (org, repo, id)

/-- `strings.Contains` on character lists. -/
def containsSubstr (s pat : List Char) : Bool :=
  match s with
  | [] => pat.isEmpty
  | _ :: rest => pat.isPrefixOf s || containsSubstr rest pat

/-! ## Data model -/

/-- The fields of `github.RepositoryCommit` read by the program. -/
structure RepositoryCommit where
  sha : String
  message : String
deriving DecidableEq

/-- The fields of `github.PullRequest` read by the program.  `baseOrg` and
`baseRepo` are `Base.Repo.Owner.Login` and `Base.Repo.Name`. -/
structure PullRequest where
  number : Int
  htmlURL : String
  state : String
  title : String
  baseRef : String
  baseOrg : String
  baseRepo : String
deriving DecidableEq

/-- `pullRequestWithStatus` from the source. -/
structure PullRequestWithStatus where
  pull : PullRequest
  status : String
deriving DecidableEq

/-- The settings fields the core logic reads. -/
structure AppSettings where
  downstreamOrg : String

/-- The GitHub client calls the program performs.  `prPages` models the
paginated `PullRequests.List(ctx, org, repo, opts)` enumeration with
`State: "all"`: the finite sequence of pages the remote serves, each a page
of pull requests or a fetch error; the Go loop consumes them in order,
following `response.NextPage` until it is zero. -/
structure GithubEnv where
  getPR : String → String → Int → Except String PullRequest
  isMerged : String → String → Int → Except String Bool
  listCommits : String → String → Int → Except String (List RepositoryCommit)
  listPRsWithCommit : String → String → String → Except String (List PullRequest)
  prPages : String → String → List (Except String (List PullRequest))

/-- `repoPRCache` from the source: every enumerated pull request and, per
pull request number, its commit list.  The Go `map[int][]*RepositoryCommit`
is only keyed-looked-up and keyed-overwritten, so an association list with
those operations models it. -/
structure RepoPRCache where
  pullRequests : List PullRequest
  commits : List (Int × List RepositoryCommit)
deriving DecidableEq

/-- The `cache` struct: `pullRequestsByRepo map[string]repoPRCache`. -/
abbrev Cache := List (String × RepoPRCache)

/-- Keyed lookup in the commits map.  A missing key yields Go's zero value
for a slice, the empty list. -/
def commitsLookup : List (Int × List RepositoryCommit) → Int → List RepositoryCommit
  | [], _ => []
  | (k2, v) :: rest, k => if k2 = k then v else commitsLookup rest k

/-- Keyed overwrite in the commits map. -/
def commitsInsert : List (Int × List RepositoryCommit) → Int → List RepositoryCommit →
    List (Int × List RepositoryCommit)
  | [], k, v => [(k, v)]
  | (k2, v2) :: rest, k, v =>
    if k2 = k then (k, v) :: rest else (k2, v2) :: commitsInsert rest k v

/-- Keyed lookup in the repository cache map. -/
def cacheLookup : Cache → String → Option RepoPRCache
  | [], _ => none
  | (k2, v) :: rest, k => if k2 = k then some v else cacheLookup rest k

/-- Keyed overwrite in the repository cache map. -/
def cacheInsert : Cache → String → RepoPRCache → Cache
  | [], k, v => [(k, v)]
  | (k2, v2) :: rest, k, v =>
    if k2 = k then (k, v) :: rest else (k2, v2) :: cacheInsert rest k v

/-! ## cache.getDetails

The Go method stores the `repoPRCache` struct **value** into the map before
the enumeration runs: `c.pullRequestsByRepo[repoKey] = prCache`.  A Go map
assignment copies the struct, so the stored copy keeps the slice header of
the initial empty `pullRequests` slice forever — later appends rebind only
the local variable's slice.  The nested `commits` map, however, is a
reference shared between the stored copy and the local variable, so commit
fetches mutate both.  The model therefore returns, on a build, the fully
populated local value to the caller while the map retains an entry whose
`pullRequests` is empty and whose `commits` is whatever the shared map held
when the build finished or aborted.
-/

/-- The inner loop of `getDetails` over one page's pull requests: fetch each
pull request's commit list and store it in the (shared) commits map.  Returns
the commits map as mutated so far and the wrapped error, if any. -/
def getCommitsForPRs (env : GithubEnv) (org repo : String) :
    List PullRequest → List (Int × List RepositoryCommit) →
    List (Int × List RepositoryCommit) × Option String
  | [], m => (m, none)
  | pr :: rest, m =>
    match env.listCommits org repo pr.number with
    | Except.error e =>
      (m, some ("could not get commits for pull request " ++ toString pr.number ++ ": " ++ e))
    | Except.ok commits => getCommitsForPRs env org repo rest (commitsInsert m pr.number commits)

/-- The page loop of `getDetails`: append each page's pull requests to the
local slice, fetch their commits, and continue to the next page.  Returns the
local pull request slice, the shared commits map, and the wrapped error, if
any. -/
def getDetailsPages (env : GithubEnv) (org repo repoKey : String) :
    List (Except String (List PullRequest)) → List PullRequest →
    List (Int × List RepositoryCommit) →
    List PullRequest × List (Int × List RepositoryCommit) × Option String
  | [], prs, m => (prs, m, none)
  | page :: rest, prs, m =>
    match page with
    | Except.error e => (prs, m, some ("could not get pull requests for " ++ repoKey ++ ": " ++ e))
    | Except.ok pagePRs =>
      match getCommitsForPRs env org repo pagePRs m with
      | (m2, some e) => (prs ++ pagePRs, m2, some e)
      | (m2, none) => getDetailsPages env org repo repoKey rest (prs ++ pagePRs) m2

/-- `cache.getDetails` from the source.  On a key hit the stored entry is
returned.  On a miss the enumeration runs; per the Go value-copy semantics
described above, the map ends up holding an entry with an empty
`pullRequests` list and the shared commits map (whether the build succeeded
or aborted), while a successful build hands the caller the fully populated
local value. -/
def getDetails (env : GithubEnv) (c : Cache) (org repo : String) :
    Cache × Except String RepoPRCache :=
  let repoKey := org ++ "/" ++ repo
  match cacheLookup c repoKey with
  | some prCache => (c, Except.ok prCache)
  | none =>
    match getDetailsPages env org repo repoKey (env.prPages org repo) [] [] with
    | (prs, m, none) =>
      (cacheInsert c repoKey { pullRequests := [], commits := m },
       Except.ok { pullRequests := prs, commits := m })
    | (_, m, some e) =>
      (cacheInsert c repoKey { pullRequests := [], commits := m }, Except.error e)

/-- `getPRStatus` from the source: raw state, overridden to "merged" when the
merge check says so, then the "open" to "OPEN" display rewrite. -/
def getPRStatus (env : GithubEnv) (pullRequest : PullRequest) :
    Except String PullRequestWithStatus :=
  match env.isMerged pullRequest.baseOrg pullRequest.baseRepo pullRequest.number with
  | Except.error e =>
    Except.error ("could not fetch merge status of pull request "
      ++ toString pullRequest.number ++ ": " ++ e)
  | Except.ok isM =>
    let status := pullRequest.state
    let status := if isM then "merged" else status
    let status := if status == "open" then "OPEN" else status
    Except.ok { pull := pullRequest, status := status }

/-! ## Link extraction -/

/-- The loop body of `uniqueStrings`: Go keeps a `keys` set of strings seen
so far and appends each unseen string to the output. -/
def uniqueStringsAux : List String → List String → List String
  | [], _ => []
  | s :: rest, keys =>
    if keys.elem s then uniqueStringsAux rest keys
    else s :: uniqueStringsAux rest (s :: keys)

/-- `uniqueStrings` from the source. -/
def uniqueStrings (xs : List String) : List String := uniqueStringsAux xs []

/-- The fields of a Jira comment read by the program. -/
structure IssueComment where
  body : String
deriving DecidableEq

/-- A search result or subtask reference: only the key is used. -/
structure IssueStub where
  key : String
deriving DecidableEq

/-- The fields of `jira.Issue` read by the program.  `comments` is an
`Option` because `issue.Fields.Comments` is a nil-able pointer the source
checks before iterating. -/
structure Issue where
  key : String
  typeName : String
  statusName : String
  summary : String
  description : String
  comments : Option (List IssueComment)
  subtasks : List IssueStub
deriving DecidableEq

/-- `getLinks` from the source: pattern matches of the description, then of
each comment body in order, passed through `uniqueStrings`. -/
def getLinks (issue : Issue) : List String :=
  let results : List String := []
  let results := results ++ prURLMatches issue.description
  let results :=
    match issue.comments with
    | none => results
    | some cs => cs.foldl (fun acc comment => acc ++ prURLMatches comment.body) results
  uniqueStrings results

/-- The raw concatenated match list of an issue in field order (description
first, then each comment), before deduplication.  Used to state what
`getLinks` computes. -/
def linkMatchesInFieldOrder (issue : Issue) : List String :=
  prURLMatches issue.description ++
    (match issue.comments with
     | none => []
     | some cs => (cs.map (fun comment => prURLMatches comment.body)).flatten)

/-! ## Link processing -/

/-- `linkResult` from the source: a parsed reference plus its status, and the
downstream matches found for it. -/
inductive LinkResult where
  | mk (url org repo : String) (id : Int) (prWithStatus : PullRequestWithStatus)
      (others : List LinkResult)

/-- The `url` field of a `LinkResult`. -/
def LinkResult.url : LinkResult → String
  | LinkResult.mk u _ _ _ _ _ => u

/-- The `org` field of a `LinkResult`. -/
def LinkResult.org : LinkResult → String
  | LinkResult.mk _ o _ _ _ _ => o

/-- The `repo` field of a `LinkResult`. -/
def LinkResult.repo : LinkResult → String
  | LinkResult.mk _ _ r _ _ _ => r

/-- The `id` field of a `LinkResult`. -/
def LinkResult.id : LinkResult → Int
  | LinkResult.mk _ _ _ i _ _ => i

/-- The `prWithStatus` field of a `LinkResult`. -/
def LinkResult.prWithStatus : LinkResult → PullRequestWithStatus
  | LinkResult.mk _ _ _ _ s _ => s

/-- The `others` field of a `LinkResult`: its downstream matches. -/
def LinkResult.others : LinkResult → List LinkResult
  | LinkResult.mk _ _ _ _ _ o => o

/-- The direct-query loop of `processLinks`: for each pull request returned
by `ListPullRequestsWithCommit`, skip the upstream link itself and
already-seen numbers, otherwise record the number, resolve the status, parse
the URL, and append a downstream result. -/
def processOtherPRs (env : GithubEnv) (url : String) :
    List PullRequest → List Int → List LinkResult → GoValue (List Int × List LinkResult)
  | [], otherIDs, others => GoValue.ok (otherIDs, others)
  | otherPR :: rest, otherIDs, others =>
    if otherPR.htmlURL == url then processOtherPRs env url rest otherIDs others
    else if otherIDs.elem otherPR.number then processOtherPRs env url rest otherIDs others
    else
      match getPRStatus env otherPR with
      | Except.error e => GoValue.err ("could not get status of " ++ otherPR.htmlURL ++ ": " ++ e)
      | Except.ok otherWithStatus =>
        match parsePRURL otherPR.htmlURL with
        | GoValue.crash m => GoValue.crash m
        | GoValue.err e =>
          GoValue.err ("could not parse pull request URL " ++ quoted otherPR.htmlURL ++ ": " ++ e)
        | GoValue.ok (o, r, i) =>
          processOtherPRs env url rest (otherPR.number :: otherIDs)
            (others ++ [LinkResult.mk otherPR.htmlURL o r i otherWithStatus []])

/-- The inner loop of the cache fallback: scan one cached pull request's
commit messages for the upstream SHA; on the first hit (and if the number is
unseen) record it, resolve it and append a downstream result. -/
def scanCommitMessages (env : GithubEnv) (pr : PullRequest) (sha : String) :
    List RepositoryCommit → List Int → List LinkResult → GoValue (List Int × List LinkResult)
  | [], otherIDs, others => GoValue.ok (otherIDs, others)
  | otherCommit :: rest, otherIDs, others =>
    if containsSubstr otherCommit.message.toList sha.toList then
      if otherIDs.elem pr.number then scanCommitMessages env pr sha rest otherIDs others
      else
        match getPRStatus env pr with
        | Except.error e => GoValue.err ("could not get status of " ++ pr.htmlURL ++ ": " ++ e)
        | Except.ok ws =>
          match parsePRURL pr.htmlURL with
          | GoValue.crash m => GoValue.crash m
          | GoValue.err e =>
            GoValue.err ("could not parse pull request URL " ++ quoted pr.htmlURL ++ ": " ++ e)
          | GoValue.ok (o, r, i) =>
            scanCommitMessages env pr sha rest (pr.number :: otherIDs)
              (others ++ [LinkResult.mk pr.htmlURL o r i ws []])
    else scanCommitMessages env pr sha rest otherIDs others

/-- The outer loop of the cache fallback: scan every cached pull request. -/
def scanCachedPRs (env : GithubEnv) (details : RepoPRCache) (sha : String) :
    List PullRequest → List Int → List LinkResult → GoValue (List Int × List LinkResult)
  | [], otherIDs, others => GoValue.ok (otherIDs, others)
  | pr :: rest, otherIDs, others =>
    match scanCommitMessages env pr sha (commitsLookup details.commits pr.number) otherIDs others with
    | GoValue.ok (ids2, others2) => scanCachedPRs env details sha rest ids2 others2
    | GoValue.err e => GoValue.err e
    | GoValue.crash m => GoValue.crash m

/-- The per-commit loop of `processLinks`: query the downstream org for pull
requests containing the commit, run the direct-query loop, and — when no
match has been found across any commit so far — build or read the repository
cache and run the commit-message fallback. -/
def processCommits (env : GithubEnv) (settings : AppSettings) (url repo : String) :
    Cache → List RepositoryCommit → List Int → List LinkResult →
    Cache × GoValue (List Int × List LinkResult)
  | c, [], otherIDs, others => (c, GoValue.ok (otherIDs, others))
  | c, commit :: rest, otherIDs, others =>
    match env.listPRsWithCommit settings.downstreamOrg repo commit.sha with
    | Except.error e => (c, GoValue.err ("could not find downstream pull requests: " ++ e))
    | Except.ok otherPRs =>
      match processOtherPRs env url otherPRs otherIDs others with
      | GoValue.err e => (c, GoValue.err e)
      | GoValue.crash m => (c, GoValue.crash m)
      | GoValue.ok (ids1, others1) =>
        if ids1.isEmpty then
          match getDetails env c settings.downstreamOrg repo with
          | (c2, Except.error e) =>
            (c2, GoValue.err ("could not build cache of details for "
              ++ settings.downstreamOrg ++ "/" ++ repo ++ ": " ++ e))
          | (c2, Except.ok cachedDetails) =>
            match scanCachedPRs env cachedDetails commit.sha cachedDetails.pullRequests ids1 others1 with
            | GoValue.err e => (c2, GoValue.err e)
            | GoValue.crash m => (c2, GoValue.crash m)
            | GoValue.ok (ids2, others2) => processCommits env settings url repo c2 rest ids2 others2
        else processCommits env settings url repo c rest ids1 others1

/-- The body of `processLinks` for one link: parse the URL, fetch the pull
request and its status; a link in the downstream org, or one whose status is
"closed", is recorded with no downstream children and no further fetches;
otherwise list the link's commits and run the per-commit matching. -/
def processOneLink (env : GithubEnv) (settings : AppSettings) (c : Cache) (url : String) :
    Cache × GoValue LinkResult :=
  match parsePRURL url with
  | GoValue.crash m => (c, GoValue.crash m)
  | GoValue.err e => (c, GoValue.err ("could not parse pull request URL " ++ quoted url ++ ": " ++ e))
  | GoValue.ok (org, repo, id) =>
    match env.getPR org repo id with
    | Except.error e => (c, GoValue.err ("could not fetch pull request " ++ quoted url ++ ": " ++ e))
    | Except.ok pullRequest =>
      match getPRStatus env pullRequest with
      | Except.error e =>
        (c, GoValue.err ("could not get status of " ++ pullRequest.htmlURL ++ ": " ++ e))
      | Except.ok prWithStatus =>
        if org == settings.downstreamOrg then
          (c, GoValue.ok (LinkResult.mk url org repo id prWithStatus []))
        else if prWithStatus.status == "closed" then
          (c, GoValue.ok (LinkResult.mk url org repo id prWithStatus []))
        else
          match env.listCommits org repo id with
          | Except.error e =>
            (c, GoValue.err ("could not list commits in pull request " ++ quoted url ++ ": " ++ e))
          | Except.ok commits =>
            match processCommits env settings url repo c commits [] [] with
            | (c2, GoValue.err e) => (c2, GoValue.err e)
            | (c2, GoValue.crash m) => (c2, GoValue.crash m)
            | (c2, GoValue.ok (_, others)) =>
              (c2, GoValue.ok (LinkResult.mk url org repo id prWithStatus others))

/-- `processLinks` from the source: process each link in order; the first
failure aborts the whole call (the Go function returns a nil slice then). -/
def processLinks (env : GithubEnv) (settings : AppSettings) :
    Cache → List String → Cache × GoValue (List LinkResult)
  | c, [] => (c, GoValue.ok [])
  | c, url :: rest =>
    match processOneLink env settings c url with
    | (c2, GoValue.err e) => (c2, GoValue.err e)
    | (c2, GoValue.crash m) => (c2, GoValue.crash m)
    | (c2, GoValue.ok lr) =>
      match processLinks env settings c2 rest with
      | (c3, GoValue.ok lrs) => (c3, GoValue.ok (lr :: lrs))
      | stop => stop

/-! ## The issue tree walk -/

/-- The Jira client calls the program performs.  `search` receives the full
JQL string the source builds. -/
structure JiraEnv where
  getIssue : String → Except String Issue
  search : String → Except String (List IssueStub)

/-- `issueResult` from the source. -/
inductive IssueResult where
  | mk (issue : Issue) (linkResults : List LinkResult) (children : List IssueResult)

/-- The `issue` field of an `IssueResult`. -/
def IssueResult.issue : IssueResult → Issue
  | IssueResult.mk i _ _ => i

/-- The `linkResults` field of an `IssueResult`. -/
def IssueResult.linkResults : IssueResult → List LinkResult
  | IssueResult.mk _ l _ => l

/-- The `children` field of an `IssueResult`. -/
def IssueResult.children : IssueResult → List IssueResult
  | IssueResult.mk _ _ c => c

/-- The child loop of `processOneIssue`: walk each child key in order; an
error from a child is wrapped ("could not process ...") and aborts the
parent. -/
def walkChildren (walker : Cache → String → Cache × GoValue IssueResult) :
    Cache → List IssueStub → Cache × GoValue (List IssueResult)
  | c, [] => (c, GoValue.ok [])
  | c, child :: rest =>
    match walker c child.key with
    | (c2, GoValue.err e) => (c2, GoValue.err ("could not process " ++ child.key ++ ": " ++ e))
    | (c2, GoValue.crash m) => (c2, GoValue.crash m)
    | (c2, GoValue.ok childResult) =>
      match walkChildren walker c2 rest with
      | (c3, GoValue.ok rs) => (c3, GoValue.ok (childResult :: rs))
      | stop => stop

/-- `processOneIssue` from the source: fetch the issue, process its links if
any, discover children by the type rule (Epic and Feature search by the
parent-link field, Story uses its subtasks, other types have no children),
and walk each child.  The recursion is fueled; Go recurses unboundedly, so
exhausted fuel — reachable only on work-item graphs with a cycle, which the
tracker forbids — is modelled as the crash Go's unbounded recursion would
be. -/
def processOneIssue (jenv : JiraEnv) (env : GithubEnv) (settings : AppSettings) :
    Nat → Cache → String → Cache × GoValue IssueResult
  | 0, c, _ => (c, GoValue.crash "recursion depth exhausted")
  | fuel + 1, c, issueID =>
    match jenv.getIssue issueID with
    | Except.error e => (c, GoValue.err ("error processing issue " ++ quoted issueID ++ ": " ++ e))
    | Except.ok issue =>
      let links := getLinks issue
      let afterLinks : Cache × GoValue (List LinkResult) :=
        if links.isEmpty then (c, GoValue.ok [])
        else
          match processLinks env settings c links with
          | (c2, GoValue.err e) =>
            (c2, GoValue.err ("failed processing links in " ++ issueID ++ ": " ++ e))
          | (c2, GoValue.crash m) => (c2, GoValue.crash m)
          | (c2, GoValue.ok lrs) => (c2, GoValue.ok lrs)
      match afterLinks with
      | (c2, GoValue.err e) => (c2, GoValue.err e)
      | (c2, GoValue.crash m) => (c2, GoValue.crash m)
      | (c2, GoValue.ok linkResults) =>
        if issue.typeName == "Epic" || issue.typeName == "Feature" then
          let searchTerm := if issue.typeName == "Feature" then "Parent Link" else "Epic Link"
          match jenv.search ("\"" ++ searchTerm ++ "\" = " ++ issueID) with
          | Except.error e =>
            (c2, GoValue.err ("could not find sub-issues related to " ++ issueID ++ ": " ++ e))
          | Except.ok children =>
            match walkChildren (processOneIssue jenv env settings fuel) c2 children with
            | (c3, GoValue.ok childResults) =>
              (c3, GoValue.ok (IssueResult.mk issue linkResults childResults))
            | (c3, GoValue.err e) => (c3, GoValue.err e)
            | (c3, GoValue.crash m) => (c3, GoValue.crash m)
        else if issue.typeName == "Story" then
          match walkChildren (processOneIssue jenv env settings fuel) c2 issue.subtasks with
          | (c3, GoValue.ok childResults) =>
            (c3, GoValue.ok (IssueResult.mk issue linkResults childResults))
          | (c3, GoValue.err e) => (c3, GoValue.err e)
          | (c3, GoValue.crash m) => (c3, GoValue.crash m)
        else (c2, GoValue.ok (IssueResult.mk issue linkResults []))

/-! ## Properties used to state the theorems -/

/-- The well-formedness facts that hold of the three groups of any pattern
match: nonempty org and repo groups of non-slash characters and a nonempty
digit id group. -/
def matchOK (o r i : List Char) : Prop :=
  o ≠ [] ∧ (∀ c ∈ o, notSlash c = true) ∧ r ≠ [] ∧ (∀ c ∈ r, notSlash c = true) ∧
  i ≠ [] ∧ (∀ c ∈ i, c.isDigit = true)

/-- A pull request whose HTML URL is canonical: parsing it recovers the pull
request's own number (true of every URL github serves). -/
def canonicalPR (pr : PullRequest) : Prop :=
  ∃ o r, parsePRURL pr.htmlURL = GoValue.ok (o, r, pr.number)

/-- An environment all of whose delivered pull requests carry canonical HTML
URLs. -/
def envCanonical (env : GithubEnv) : Prop :=
  (∀ org repo sha l, env.listPRsWithCommit org repo sha = Except.ok l →
    ∀ pr ∈ l, canonicalPR pr) ∧
  (∀ org repo l, Except.ok l ∈ env.prPages org repo → ∀ pr ∈ l, canonicalPR pr)

/-- A cache all of whose stored pull requests carry canonical HTML URLs. -/
def cacheCanonical (c : Cache) : Prop :=
  ∀ k entry, cacheLookup c k = some entry → ∀ pr ∈ entry.pullRequests, canonicalPR pr

/-- The loop invariant of the downstream matching: the ids recorded in the
`otherIDs` set are exactly (in reverse discovery order) the ids of the
downstream results accumulated so far. -/
def othersMatchIDs (otherIDs : List Int) (others : List LinkResult) : Prop :=
  others.map LinkResult.id = otherIDs.reverse

/-! ## Concrete data used by the witnesses and counterexamples -/

/-- A downstream pull request with one commit, served by the sample remotes. -/
def samplePR9 : PullRequest :=
  { number := 9, htmlURL := "https://github.com/down/r1/pull/9", state := "closed",
    title := "backport", baseRef := "main", baseOrg := "down", baseRepo := "r1" }

/-- A commit of `samplePR9`. -/
def sampleCommit : RepositoryCommit := { sha := "abc123", message := "a fix" }

/-- A remote serving one single-page repository listing containing
`samplePR9`. -/
def envOnePage : GithubEnv :=
  { getPR := fun _ _ _ => Except.error "unused",
    isMerged := fun _ _ _ => Except.error "unused",
    listCommits := fun _ _ _ => Except.ok [sampleCommit],
    listPRsWithCommit := fun _ _ _ => Except.ok [],
    prPages := fun _ _ => [Except.ok [samplePR9]] }

/-- A remote whose first listing page succeeds and whose second page fails. -/
def envPageTwoFails : GithubEnv :=
  { getPR := fun _ _ _ => Except.error "unused",
    isMerged := fun _ _ _ => Except.error "unused",
    listCommits := fun _ _ _ => Except.ok [sampleCommit],
    listPRsWithCommit := fun _ _ _ => Except.ok [],
    prPages := fun _ _ => [Except.ok [samplePR9], Except.error "boom"] }

/-- The settings every sample run uses: the downstream org is "down". -/
def settingsX : AppSettings := { downstreamOrg := "down" }

/-- A GitHub remote that refuses every call; used where no GitHub call is
expected to happen. -/
def envNop : GithubEnv :=
  { getPR := fun _ _ _ => Except.error "unused",
    isMerged := fun _ _ _ => Except.error "unused",
    listCommits := fun _ _ _ => Except.error "unused",
    listPRsWithCommit := fun _ _ _ => Except.error "unused",
    prPages := fun _ _ => [] }

/-- An epic with no links and no subtasks. -/
def epicE1 : Issue :=
  { key := "E1", typeName := "Epic", statusName := "Open", summary := "epic",
    description := "", comments := none, subtasks := [] }

/-- A tracker serving `epicE1`, one child "S1" for every search, and failing
every other item fetch. -/
def jenvChildFails : JiraEnv :=
  { getIssue := fun k => if k == "E1" then Except.ok epicE1 else Except.error "boom",
    search := fun _ => Except.ok [{ key := "S1" }] }

/-- A story whose subtask list carries a duplicated key. -/
def storyDupKids : Issue :=
  { key := "S1", typeName := "Story", statusName := "Open", summary := "story",
    description := "", comments := none,
    subtasks := [{ key := "A" }, { key := "A" }, { key := "B" }] }

/-- A task with no links and no children. -/
def taskA : Issue :=
  { key := "A", typeName := "Task", statusName := "Open", summary := "a",
    description := "", comments := none, subtasks := [] }

/-- Another task with no links and no children. -/
def taskB : Issue :=
  { key := "B", typeName := "Task", statusName := "Open", summary := "b",
    description := "", comments := none, subtasks := [] }

/-- A tracker serving the duplicated-subtask story and its two tasks. -/
def jenvDupKids : JiraEnv :=
  { getIssue := fun k =>
      if k == "S1" then Except.ok storyDupKids
      else if k == "A" then Except.ok taskA
      else if k == "B" then Except.ok taskB
      else Except.error "missing",
    search := fun _ => Except.ok [] }

/-- An open, unmerged upstream pull request. -/
def upPR1 : PullRequest :=
  { number := 1, htmlURL := "https://github.com/up/r1/pull/1", state := "open",
    title := "fix", baseRef := "main", baseOrg := "up", baseRepo := "r1" }

/-- The canonical URL of `upPR1`. -/
def upURL : String := "https://github.com/up/r1/pull/1"

/-- The single commit of `upPR1`. -/
def upCommit : RepositoryCommit := { sha := "abc123", message := "a fix" }

/-- A second commit of `upPR1`. -/
def upCommit2 : RepositoryCommit := { sha := "def456", message := "another fix" }

/-- A remote whose downstream commit query fails with a repository-not-found
error. -/
def envNotFound : GithubEnv :=
  { getPR := fun _ _ _ => Except.ok upPR1,
    isMerged := fun _ _ _ => Except.ok false,
    listCommits := fun _ _ _ => Except.ok [upCommit],
    listPRsWithCommit := fun _ _ _ => Except.error "404 repository not found",
    prPages := fun _ _ => [] }

/-- A pull request whose HTML URL does not match the URL pattern. -/
def badPR : PullRequest :=
  { number := 5, htmlURL := "nope", state := "open",
    title := "b", baseRef := "main", baseOrg := "down", baseRepo := "r1" }

/-- A remote whose downstream commit query returns the ill-formed `badPR`. -/
def envBadURL : GithubEnv :=
  { getPR := fun _ _ _ => Except.ok upPR1,
    isMerged := fun _ _ _ => Except.ok false,
    listCommits := fun _ _ _ => Except.ok [upCommit],
    listPRsWithCommit := fun _ _ _ => Except.ok [badPR],
    prPages := fun _ _ => [] }

/-- A downstream pull request matched by the sample commit queries. -/
def downPR9 : PullRequest :=
  { number := 9, htmlURL := "https://github.com/down/r1/pull/9", state := "closed",
    title := "backport", baseRef := "main", baseOrg := "down", baseRepo := "r1" }

/-- A remote on which both commits of the upstream link discover the same
downstream pull request `downPR9`. -/
def envSameMatch : GithubEnv :=
  { getPR := fun _ _ _ => Except.ok upPR1,
    isMerged := fun _ _ _ => Except.ok false,
    listCommits := fun _ _ _ => Except.ok [upCommit, upCommit2],
    listPRsWithCommit := fun _ _ _ => Except.ok [downPR9],
    prPages := fun _ _ => [] }

/-- The link result `processLinks` produces for `upURL` on `envSameMatch`:
one downstream child despite two commits discovering it. -/
def lrSameMatch : LinkResult :=
  LinkResult.mk upURL "up" "r1" 1 { pull := upPR1, status := "OPEN" }
    [LinkResult.mk "https://github.com/down/r1/pull/9" "down" "r1" 9
      { pull := downPR9, status := "closed" } []]

/-- A closed, unmerged upstream pull request. -/
def closedPR : PullRequest :=
  { number := 2, htmlURL := "https://github.com/up/r1/pull/2", state := "closed",
    title := "abandoned", baseRef := "main", baseOrg := "up", baseRepo := "r1" }

/-- The canonical URL of `closedPR`. -/
def closedURL : String := "https://github.com/up/r1/pull/2"

/-- A remote serving the closed upstream pull request; its commit and
downstream-query endpoints refuse every call. -/
def envClosedA : GithubEnv :=
  { getPR := fun _ _ _ => Except.ok closedPR,
    isMerged := fun _ _ _ => Except.ok false,
    listCommits := fun _ _ _ => Except.error "must not be called",
    listPRsWithCommit := fun _ _ _ => Except.error "must not be called",
    prPages := fun _ _ => [] }

/-- A remote agreeing with `envClosedA` on the review fetch and merge check
but answering arbitrarily differently on every other endpoint. -/
def envClosedB : GithubEnv :=
  { getPR := fun _ _ _ => Except.ok closedPR,
    isMerged := fun _ _ _ => Except.ok false,
    listCommits := fun _ _ _ => Except.ok [upCommit, upCommit2],
    listPRsWithCommit := fun _ _ _ => Except.ok [downPR9],
    prPages := fun _ _ => [Except.ok [downPR9]] }

/-- An issue whose description carries one pull request link. -/
def issueWithLink : Issue :=
  { key := "T1", typeName := "Task", statusName := "Open", summary := "task",
    description := "see https://github.com/up/r1/pull/1 please",
    comments := none, subtasks := [] }

/-! ## Helper lemmas: link extraction -/

/-- Folding comment matches onto an accumulator appends their concatenation. -/
theorem foldl_append_matches {α β : Type} (f : α → List β) (cs : List α) (acc : List β) :
    cs.foldl (fun a c => a ++ f c) acc = acc ++ (cs.map f).flatten := by
  induction cs generalizing acc with
  | nil => simp
  | cons c rest ih => simp [ih, List.append_assoc]

/-- `getLinks` is exactly `uniqueStrings` of the field-order match list. -/
theorem getLinks_eq_uniqueStrings (issue : Issue) :
    getLinks issue = uniqueStrings (linkMatchesInFieldOrder issue) := by
  unfold getLinks linkMatchesInFieldOrder
  cases issue.comments with
  | none => simp
  | some cs => simp [foldl_append_matches]

/-- The library dedup loop agrees with `uniqueStringsAux` up to the reversed
accumulator: both keep a string exactly when it is not among those kept so
far. -/
theorem eraseDups_loop_eq (l acc : List String) :
    List.eraseDups.loop l acc = acc.reverse ++ uniqueStringsAux l acc := by
  induction l generalizing acc with
  | nil => simp [List.eraseDups.loop, uniqueStringsAux]
  | cons a rest ih =>
    by_cases h : a ∈ acc
    · simp [List.eraseDups.loop, uniqueStringsAux, h, ih]
    · simp [List.eraseDups.loop, uniqueStringsAux, h, ih]

/-- `uniqueStrings` is the library's first-occurrence deduplication. -/
theorem uniqueStrings_eq_eraseDups (l : List String) : uniqueStrings l = l.eraseDups := by
  unfold uniqueStrings List.eraseDups
  rw [eraseDups_loop_eq]
  simp

/-- Everything `uniqueStringsAux` keeps comes from its input. -/
theorem mem_of_mem_uniqueStringsAux {x : String} {l seen : List String}
    (h : x ∈ uniqueStringsAux l seen) : x ∈ l := by
  induction l generalizing seen with
  | nil => simp [uniqueStringsAux] at h
  | cons s rest ih =>
    by_cases hs : s ∈ seen
    · rw [uniqueStringsAux] at h
      simp only [hs, List.elem_iff, if_pos] at h
      exact List.mem_cons_of_mem _ (ih h)
    · rw [uniqueStringsAux] at h
      simp only [hs, List.elem_iff, if_neg, not_false_iff] at h
      rcases List.mem_cons.mp h with h1 | h2
      · exact h1 ▸ List.mem_cons_self _ _
      · exact List.mem_cons_of_mem _ (ih h2)

/-- Nothing `uniqueStringsAux` keeps was already in the seen set. -/
theorem not_mem_seen_of_mem_uniqueStringsAux {x : String} {l seen : List String}
    (h : x ∈ uniqueStringsAux l seen) : x ∉ seen := by
  induction l generalizing seen with
  | nil => simp [uniqueStringsAux] at h
  | cons s rest ih =>
    by_cases hs : s ∈ seen
    · rw [uniqueStringsAux] at h
      simp only [hs, List.elem_iff, if_pos] at h
      exact ih h
    · rw [uniqueStringsAux] at h
      simp only [hs, List.elem_iff, if_neg, not_false_iff] at h
      rcases List.mem_cons.mp h with h1 | h2
      · exact h1 ▸ hs
      · intro hxseen
        exact ih h2 (List.mem_cons_of_mem _ hxseen)

/-- The output of `uniqueStringsAux` carries no duplicates. -/
theorem nodup_uniqueStringsAux (l seen : List String) : (uniqueStringsAux l seen).Nodup := by
  induction l generalizing seen with
  | nil => simp [uniqueStringsAux]
  | cons s rest ih =>
    by_cases hs : s ∈ seen
    · rw [uniqueStringsAux]
      simp only [hs, List.elem_iff, if_pos]
      exact ih seen
    · rw [uniqueStringsAux]
      simp only [hs, List.elem_iff, if_neg, not_false_iff]
      refine List.nodup_cons.mpr ⟨?_, ih (s :: seen)⟩
      intro hmem
      exact not_mem_seen_of_mem_uniqueStringsAux hmem (List.mem_cons_self _ _)

/-- The output of `uniqueStringsAux` is a sublist of its input: kept
occurrences stay in their original relative order. -/
theorem sublist_uniqueStringsAux (l seen : List String) :
    List.Sublist (uniqueStringsAux l seen) l := by
  induction l generalizing seen with
  | nil => simp [uniqueStringsAux]
  | cons s rest ih =>
    by_cases hs : s ∈ seen
    · rw [uniqueStringsAux]
      simp only [hs, List.elem_iff, if_pos]
      exact (ih seen).cons s
    · rw [uniqueStringsAux]
      simp only [hs, List.elem_iff, if_neg, not_false_iff]
      exact (ih (s :: seen)).cons₂ s

/-- Every input string not yet seen survives deduplication. -/
theorem mem_uniqueStringsAux_of_mem {x : String} {l seen : List String}
    (hx : x ∈ l) (hseen : x ∉ seen) : x ∈ uniqueStringsAux l seen := by
  induction l generalizing seen with
  | nil => cases hx
  | cons s rest ih =>
    by_cases hs : s ∈ seen
    · rw [uniqueStringsAux]
      simp only [hs, List.elem_iff, if_pos]
      rcases List.mem_cons.mp hx with h1 | h2
      · exact absurd (h1 ▸ hs) hseen
      · exact ih h2 hseen
    · rw [uniqueStringsAux]
      simp only [hs, List.elem_iff, if_neg, not_false_iff]
      by_cases hxs : x = s
      · exact hxs ▸ List.mem_cons_self _ _
      · rcases List.mem_cons.mp hx with h1 | h2
        · exact absurd h1 hxs
        · exact List.mem_cons_of_mem _
            (ih h2 (by simp [hxs, hseen, List.mem_cons]))

/-! ## Helper lemmas: the URL pattern matcher -/

/-- Every character of the prefix group returned by `spanP` satisfies the
predicate. -/
theorem spanP_fst_sat (p : Char → Bool) (l : List Char) : ∀ c ∈ (spanP p l).1, p c = true := by
  induction l with
  | nil => intro c hc; simp [spanP] at hc
  | cons a rest ih =>
    intro c hc
    by_cases ha : p a
    · rw [spanP] at hc
      simp only [ha, if_pos] at hc
      rcases List.mem_cons.mp hc with h1 | h2
      · exact h1 ▸ ha
      · exact ih c h2
    · rw [spanP] at hc
      simp only [ha, if_neg, not_false_iff] at hc
      cases hc

/-- `spanP` splits exactly at the first failing character. -/
theorem spanP_append_stop (p : Char → Bool) (a : List Char) (x : Char) (b : List Char)
    (ha : ∀ c ∈ a, p c = true) (hx : p x = false) :
    spanP p (a ++ x :: b) = (a, x :: b) := by
  induction a with
  | nil => simp [spanP, hx]
  | cons c rest ih =>
    have hc : p c = true := ha c (List.mem_cons_self _ _)
    have hrest : ∀ d ∈ rest, p d = true := fun d hd => ha d (List.mem_cons_of_mem _ hd)
    simp [spanP, hc, ih hrest]

/-- `spanP` consumes an entirely satisfying list whole. -/
theorem spanP_all_sat (p : Char → Bool) (a : List Char) (ha : ∀ c ∈ a, p c = true) :
    spanP p a = (a, []) := by
  induction a with
  | nil => simp [spanP]
  | cons c rest ih =>
    have hc : p c = true := ha c (List.mem_cons_self _ _)
    have hrest : ∀ d ∈ rest, p d = true := fun d hd => ha d (List.mem_cons_of_mem _ hd)
    simp [spanP, hc, ih hrest]

/-- Matching a literal against itself plus a remainder strips the literal. -/
theorem stripLit_append (p cs : List Char) : stripLit p (p ++ cs) = some cs := by
  induction p with
  | nil => simp [stripLit]
  | cons c rest ih => simp [stripLit, ih]

/-- The groups of any successful pattern match are well formed. -/
theorem matchPRURLAt_sound {cs o r i rest : List Char}
    (h : matchPRURLAt cs = some (o, r, i, rest)) : matchOK o r i := by
  unfold matchPRURLAt at h
  cases hstrip : stripLit httpsGithubCom cs with
  | none => rw [hstrip] at h; cases h
  | some r1 =>
    rw [hstrip] at h
    simp only at h
    by_cases ho : (spanP notSlash r1).1.isEmpty
    · simp [ho] at h
    · simp only [ho, if_neg, not_false_iff, Bool.not_eq_true] at h
      cases hs2 : (spanP notSlash r1).2 with
      | nil => rw [hs2] at h; cases h
      | cons c2 r3 =>
        rw [hs2] at h
        simp only at h
        by_cases hc2 : c2 = '/'
        · simp only [hc2, if_pos] at h
          by_cases hr : (spanP notSlash r3).1.isEmpty
          · simp [hr] at h
          · simp only [hr, if_neg, not_false_iff, Bool.not_eq_true] at h
            cases hstrip2 : stripLit slashPullSlash (spanP notSlash r3).2 with
            | none => rw [hstrip2] at h; cases h
            | some r5 =>
              rw [hstrip2] at h
              simp only at h
              by_cases hi : (spanP Char.isDigit r5).1.isEmpty
              · simp [hi] at h
              · simp only [hi, if_neg, not_false_iff, Bool.not_eq_true] at h
                injection h with h1
                injection h1 with ho2 h2
                injection h2 with hr2 h3
                injection h3 with hi2 hrest2
                subst ho2; subst hr2; subst hi2
                refine ⟨?_, spanP_fst_sat _ _, ?_, spanP_fst_sat _ _, ?_, spanP_fst_sat _ _⟩
                · intro hcon; rw [hcon] at ho; exact ho rfl
                · intro hcon; rw [hcon] at hr; exact hr rfl
                · intro hcon; rw [hcon] at hi; exact hi rfl
        · simp [hc2] at h

/-- A reconstructed match re-matches at position zero, consuming itself
exactly. -/
theorem matchPRURLAt_matchChars {o r i : List Char} (h : matchOK o r i) :
    matchPRURLAt (matchChars o r i) = some (o, r, i, []) := by
  obtain ⟨hone, hosat, hrne, hrsat, hine, hisat⟩ := h
  unfold matchPRURLAt matchChars
  rw [stripLit_append]
  simp only
  have hslash : notSlash '/' = false := rfl
  have hpull : slashPullSlash ++ i = '/' :: ("pull/".toList ++ i) := rfl
  rw [show r ++ (slashPullSlash ++ i) = r ++ '/' :: ("pull/".toList ++ i) by rw [hpull]]
  rw [spanP_append_stop notSlash o '/' (r ++ '/' :: ("pull/".toList ++ i)) hosat hslash]
  simp only [List.isEmpty_eq_true, hone, if_neg, not_false_iff]
  rw [spanP_append_stop notSlash r '/' ("pull/".toList ++ i) hrsat hslash]
  simp only [List.isEmpty_eq_true, hrne, if_neg, not_false_iff, if_pos]
  rw [show ('/' :: ("pull/".toList ++ i)) = slashPullSlash ++ i from rfl]
  rw [stripLit_append]
  simp only
  rw [spanP_all_sat Char.isDigit i hisat]
  simp only [List.isEmpty_eq_true, hine, if_neg, not_false_iff]

/-- Every string the scan emits is a reconstructed well-formed match. -/
theorem mem_findAllPRURLs {x : String} :
    ∀ {fuel : Nat} {cs : List Char}, x ∈ findAllPRURLs fuel cs →
      ∃ o r i, x = String.mk (matchChars o r i) ∧ matchOK o r i := by
  intro fuel
  induction fuel with
  | zero => intro cs h; simp [findAllPRURLs] at h
  | succ n ih =>
    intro cs h
    cases cs with
    | nil => simp [findAllPRURLs] at h
    | cons c rest =>
      rw [findAllPRURLs] at h
      cases hm : matchPRURLAt (c :: rest) with
      | none =>
        rw [hm] at h
        exact ih h
      | some tup =>
        obtain ⟨o, r, i, after⟩ := tup
        rw [hm] at h
        rcases List.mem_cons.mp h with h1 | h2
        · exact ⟨o, r, i, h1, matchPRURLAt_sound hm⟩
        · exact ih h2

/-- `parsePRURL` of a reconstructed match never crashes: the first submatch
scan succeeds at position zero, so only the integer conversion can fail. -/
theorem parsePRURL_matchChars_no_crash {o r i : List Char} (h : matchOK o r i) :
    (parsePRURL (String.mk (matchChars o r i))).isCrash = false := by
  unfold parsePRURL
  have htl : (String.mk (matchChars o r i)).toList = matchChars o r i := rfl
  rw [htl]
  have hcons : matchChars o r i =
      'h' :: ("ttps://github.com/".toList ++ (o ++ ('/' :: (r ++ (slashPullSlash ++ i))))) := by
    rw [matchChars]
    rfl
  rw [hcons]
  rw [show ('h' :: ("ttps://github.com/".toList ++ (o ++ ('/' :: (r ++ (slashPullSlash ++ i)))))).length
      = ("ttps://github.com/".toList ++ (o ++ ('/' :: (r ++ (slashPullSlash ++ i))))).length + 1 from rfl]
  rw [findFirstSubmatch]
  rw [← hcons, matchPRURLAt_matchChars h]
  simp only
  cases goAtoi (String.mk i) with
  | error e => rfl
  | ok v => rfl

/-- Every URL in the field-order match list of an issue is a reconstructed
well-formed match. -/
theorem mem_linkMatches_emitted {issue : Issue} {url : String}
    (h : url ∈ linkMatchesInFieldOrder issue) :
    ∃ o r i, url = String.mk (matchChars o r i) ∧ matchOK o r i := by
  unfold linkMatchesInFieldOrder at h
  rcases List.mem_append.mp h with h1 | h2
  · exact mem_findAllPRURLs h1
  · cases hc : issue.comments with
    | none => rw [hc] at h2; cases h2
    | some cs =>
      rw [hc] at h2
      rcases List.mem_flatten.mp h2 with ⟨l, hl, hurl⟩
      rcases List.mem_map.mp hl with ⟨comment, _, hlc⟩
      rw [← hlc] at hurl
      exact mem_findAllPRURLs hurl

/-! ## Helper lemmas: the cache and the downstream-match invariant -/

/-- Looking up after a keyed overwrite. -/
theorem cacheLookup_insert (c : Cache) (k : String) (v : RepoPRCache) (k2 : String) :
    cacheLookup (cacheInsert c k v) k2 = if k = k2 then some v else cacheLookup c k2 := by
  induction c with
  | nil => simp [cacheInsert, cacheLookup]
  | cons hd rest ih =>
    rcases hd with ⟨k3, v3⟩
    rw [cacheInsert]
    by_cases h3 : k3 = k
    · subst h3
      rw [if_pos rfl, cacheLookup]
      by_cases h2 : k3 = k2
      · rw [if_pos h2, if_pos h2]
      · rw [if_neg h2, if_neg h2, cacheLookup, if_neg h2]
    · rw [if_neg h3, cacheLookup, ih]
      by_cases h2 : k3 = k2
      · subst h2
        have hne : ¬ k = k3 := fun he => h3 he.symm
        rw [if_pos rfl, if_neg hne, cacheLookup, if_pos rfl]
      · rw [if_neg h2]
        by_cases hk : k = k2
        · rw [if_pos hk, if_pos hk]
        · rw [if_neg hk, if_neg hk, cacheLookup, if_neg h2]

/-- A successful page enumeration only accumulates pull requests delivered by
the pages, so canonicity of the pages carries over. -/
theorem getDetailsPages_canonical (env : GithubEnv) (org repo repoKey : String) :
    ∀ (pages : List (Except String (List PullRequest))) (prs : List PullRequest)
      (m : List (Int × List RepositoryCommit)) (prs' : List PullRequest)
      (m' : List (Int × List RepositoryCommit)),
      (∀ l, Except.ok l ∈ pages → ∀ pr ∈ l, canonicalPR pr) →
      (∀ pr ∈ prs, canonicalPR pr) →
      getDetailsPages env org repo repoKey pages prs m = (prs', m', none) →
      ∀ pr ∈ prs', canonicalPR pr := by
  intro pages
  induction pages with
  | nil =>
    intro prs m prs' m' _ hprs h
    rw [getDetailsPages] at h
    injection h with h1 h2
    exact h1 ▸ hprs
  | cons page rest ih =>
    intro prs m prs' m' hpages hprs h
    cases page with
    | error e =>
      rw [getDetailsPages] at h
      injection h with h1 h2
      injection h2 with h3 h4
      cases h4
    | ok pagePRs =>
      rw [getDetailsPages] at h
      rcases hg : getCommitsForPRs env org repo pagePRs m with ⟨m2, oe⟩
      rw [hg] at h
      cases oe with
      | some e =>
        simp only at h
        injection h with h1 h2
        injection h2 with h3 h4
        cases h4
      | none =>
        simp only at h
        refine ih (prs ++ pagePRs) m2 prs' m'
          (fun l hl => hpages l (List.mem_cons_of_mem _ hl)) ?_ h
        intro pr hpr
        rcases List.mem_append.mp hpr with h1 | h2
        · exact hprs pr h1
        · exact hpages pagePRs (List.mem_cons_self _ _) pr h2

/-- A successful `getDetails` over a canonical environment and cache yields
canonical pull requests and preserves cache canonicity (the entry it stores
always has an empty pull request list, per the Go value-copy semantics). -/
theorem getDetails_canonical {env : GithubEnv} {c : Cache} {org repo : String}
    {c' : Cache} {d : RepoPRCache}
    (henv : envCanonical env) (hc : cacheCanonical c)
    (h : getDetails env c org repo = (c', Except.ok d)) :
    (∀ pr ∈ d.pullRequests, canonicalPR pr) ∧ cacheCanonical c' := by
  rw [getDetails] at h
  cases hl : cacheLookup c (org ++ "/" ++ repo) with
  | some entry =>
    rw [hl] at h
    injection h with h1 h2
    injection h2 with h3
    subst h1
    exact ⟨h3 ▸ hc _ _ hl, hc⟩
  | none =>
    rw [hl] at h
    simp only at h
    rcases hp : getDetailsPages env org repo (org ++ "/" ++ repo)
      (env.prPages org repo) [] [] with ⟨prs, m, oe⟩
    rw [hp] at h
    cases oe with
    | some e =>
      simp only at h
      injection h with h1 h2
      cases h2
    | none =>
      simp only at h
      injection h with h1 h2
      injection h2 with h3
      constructor
      · rw [← h3]
        exact getDetailsPages_canonical env org repo _ _ [] [] prs m
          (fun l hl2 => henv.2 org repo l hl2) (by intro pr hpr; cases hpr) hp
      · rw [← h1]
        intro k entry hlk pr hpr
        rw [cacheLookup_insert] at hlk
        by_cases hk : (org ++ "/" ++ repo) = k
        · rw [if_pos hk] at hlk
          injection hlk with h4
          rw [← h4] at hpr
          cases hpr
        · rw [if_neg hk] at hlk
          exact hc _ _ hlk pr hpr

/-- The direct-query loop preserves the id-set invariant and the absence of
duplicate recorded numbers. -/
theorem processOtherPRs_inv (env : GithubEnv) (url : String) :
    ∀ (prs : List PullRequest) (otherIDs : List Int) (others : List LinkResult)
      (ids' : List Int) (others' : List LinkResult),
      (∀ pr ∈ prs, canonicalPR pr) →
      processOtherPRs env url prs otherIDs others = GoValue.ok (ids', others') →
      othersMatchIDs otherIDs others → otherIDs.Nodup →
      othersMatchIDs ids' others' ∧ ids'.Nodup := by
  intro prs
  induction prs with
  | nil =>
    intro otherIDs others ids' others' _ h hinv hnd
    rw [processOtherPRs] at h
    injection h with h1
    injection h1 with h2 h3
    subst h2; subst h3
    exact ⟨hinv, hnd⟩
  | cons pr rest ih =>
    intro otherIDs others ids' others' hcanon h hinv hnd
    have hrest : ∀ p ∈ rest, canonicalPR p := fun p hp => hcanon p (List.mem_cons_of_mem _ hp)
    rw [processOtherPRs] at h
    by_cases hurl : pr.htmlURL == url
    · rw [if_pos hurl] at h
      exact ih otherIDs others ids' others' hrest h hinv hnd
    · rw [if_neg hurl] at h
      by_cases hmem : pr.number ∈ otherIDs
      · rw [if_pos (List.elem_iff.mpr hmem)] at h
        exact ih otherIDs others ids' others' hrest h hinv hnd
      · rw [if_neg (fun hc => hmem (List.elem_iff.mp hc))] at h
        rcases hcanon pr (List.mem_cons_self _ _) with ⟨o, r, hparse⟩
        cases hst : getPRStatus env pr with
        | error e => rw [hst] at h; cases h
        | ok ws =>
          rw [hst] at h
          simp only at h
          rw [hparse] at h
          simp only at h
          refine ih _ _ ids' others' hrest h ?_ ?_
          · unfold othersMatchIDs at hinv ⊢
            rw [List.map_append, hinv]
            simp [LinkResult.id]
          · exact List.nodup_cons.mpr ⟨hmem, hnd⟩

/-- The commit-message scan of one cached pull request preserves the
invariant. -/
theorem scanCommitMessages_inv (env : GithubEnv) (pr : PullRequest) (sha : String)
    (hcanon : canonicalPR pr) :
    ∀ (cs : List RepositoryCommit) (otherIDs : List Int) (others : List LinkResult)
      (ids' : List Int) (others' : List LinkResult),
      scanCommitMessages env pr sha cs otherIDs others = GoValue.ok (ids', others') →
      othersMatchIDs otherIDs others → otherIDs.Nodup →
      othersMatchIDs ids' others' ∧ ids'.Nodup := by
  intro cs
  induction cs with
  | nil =>
    intro otherIDs others ids' others' h hinv hnd
    rw [scanCommitMessages] at h
    injection h with h1
    injection h1 with h2 h3
    subst h2; subst h3
    exact ⟨hinv, hnd⟩
  | cons oc rest ih =>
    intro otherIDs others ids' others' h hinv hnd
    rw [scanCommitMessages] at h
    by_cases hsub : containsSubstr oc.message.toList sha.toList
    · rw [if_pos hsub] at h
      by_cases hmem : pr.number ∈ otherIDs
      · rw [if_pos (List.elem_iff.mpr hmem)] at h
        exact ih otherIDs others ids' others' h hinv hnd
      · rw [if_neg (fun hc => hmem (List.elem_iff.mp hc))] at h
        rcases hcanon with ⟨o, r, hparse⟩
        cases hst : getPRStatus env pr with
        | error e => rw [hst] at h; cases h
        | ok ws =>
          rw [hst] at h
          simp only at h
          rw [hparse] at h
          simp only at h
          refine ih _ _ ids' others' h ?_ ?_
          · unfold othersMatchIDs at hinv ⊢
            rw [List.map_append, hinv]
            simp [LinkResult.id]
          · exact List.nodup_cons.mpr ⟨hmem, hnd⟩
    · rw [if_neg hsub] at h
      exact ih otherIDs others ids' others' h hinv hnd

/-- The fallback scan over all cached pull requests preserves the invariant. -/
theorem scanCachedPRs_inv (env : GithubEnv) (details : RepoPRCache) (sha : String) :
    ∀ (prs : List PullRequest) (otherIDs : List Int) (others : List LinkResult)
      (ids' : List Int) (others' : List LinkResult),
      (∀ pr ∈ prs, canonicalPR pr) →
      scanCachedPRs env details sha prs otherIDs others = GoValue.ok (ids', others') →
      othersMatchIDs otherIDs others → otherIDs.Nodup →
      othersMatchIDs ids' others' ∧ ids'.Nodup := by
  intro prs
  induction prs with
  | nil =>
    intro otherIDs others ids' others' _ h hinv hnd
    rw [scanCachedPRs] at h
    injection h with h1
    injection h1 with h2 h3
    subst h2; subst h3
    exact ⟨hinv, hnd⟩
  | cons pr rest ih =>
    intro otherIDs others ids' others' hcanon h hinv hnd
    rw [scanCachedPRs] at h
    cases hscan : scanCommitMessages env pr sha
        (commitsLookup details.commits pr.number) otherIDs others with
    | err e => rw [hscan] at h; cases h
    | crash m => rw [hscan] at h; cases h
    | ok p =>
      rcases p with ⟨ids2, others2⟩
      rw [hscan] at h
      simp only at h
      rcases scanCommitMessages_inv env pr sha (hcanon pr (List.mem_cons_self _ _)) _ _ _ _ _
        hscan hinv hnd with ⟨hinv2, hnd2⟩
      exact ih ids2 others2 ids' others'
        (fun p hp => hcanon p (List.mem_cons_of_mem _ hp)) h hinv2 hnd2

/-- The per-commit matching loop preserves the invariant and cache
canonicity across both the direct-query and cache-fallback paths. -/
theorem processCommits_inv (env : GithubEnv) (settings : AppSettings) (url repo : String)
    (henv : envCanonical env) :
    ∀ (commits : List RepositoryCommit) (c : Cache) (otherIDs : List Int)
      (others : List LinkResult) (c' : Cache) (ids' : List Int) (others' : List LinkResult),
      cacheCanonical c →
      processCommits env settings url repo c commits otherIDs others =
        (c', GoValue.ok (ids', others')) →
      othersMatchIDs otherIDs others → otherIDs.Nodup →
      othersMatchIDs ids' others' ∧ ids'.Nodup ∧ cacheCanonical c' := by
  intro commits
  induction commits with
  | nil =>
    intro c otherIDs others c' ids' others' hc h hinv hnd
    rw [processCommits] at h
    injection h with h1 h2
    injection h2 with h3
    injection h3 with h4 h5
    subst h1; subst h4; subst h5
    exact ⟨hinv, hnd, hc⟩
  | cons commit rest ih =>
    intro c otherIDs others c' ids' others' hc h hinv hnd
    rw [processCommits] at h
    cases hq : env.listPRsWithCommit settings.downstreamOrg repo commit.sha with
    | error e => rw [hq] at h; injection h with h1 h2; cases h2
    | ok otherPRs =>
      rw [hq] at h
      simp only at h
      cases hpo : processOtherPRs env url otherPRs otherIDs others with
      | err e => rw [hpo] at h; injection h with h1 h2; cases h2
      | crash m => rw [hpo] at h; injection h with h1 h2; cases h2
      | ok p =>
        rcases p with ⟨ids1, others1⟩
        rw [hpo] at h
        simp only at h
        rcases processOtherPRs_inv env url otherPRs otherIDs others ids1 others1
          (henv.1 _ _ _ _ hq) hpo hinv hnd with ⟨hinv1, hnd1⟩
        by_cases hempty : ids1.isEmpty
        · rw [if_pos hempty] at h
          rcases hgd : getDetails env c settings.downstreamOrg repo with ⟨c2, dres⟩
          rw [hgd] at h
          cases dres with
          | error e => simp only at h; injection h with h1 h2; cases h2
          | ok details =>
            simp only at h
            rcases getDetails_canonical henv hc hgd with ⟨hdet, hc2⟩
            cases hscan : scanCachedPRs env details commit.sha
                details.pullRequests ids1 others1 with
            | err e => rw [hscan] at h; injection h with h1 h2; cases h2
            | crash m => rw [hscan] at h; injection h with h1 h2; cases h2
            | ok p2 =>
              rcases p2 with ⟨ids2, others2⟩
              rw [hscan] at h
              simp only at h
              rcases scanCachedPRs_inv env details commit.sha details.pullRequests ids1 others1
                ids2 others2 hdet hscan hinv1 hnd1 with ⟨hinv2, hnd2⟩
              exact ih c2 ids2 others2 c' ids' others' hc2 h hinv2 hnd2
        · rw [if_neg hempty] at h
          exact ih c ids1 others1 c' ids' others' hc h hinv1 hnd1

/-- A successful single-link run yields a result with pairwise-distinct
downstream ids and preserves cache canonicity. -/
theorem processOneLink_inv {env : GithubEnv} {settings : AppSettings} {c : Cache} {url : String}
    {c' : Cache} {lr : LinkResult}
    (henv : envCanonical env) (hc : cacheCanonical c)
    (h : processOneLink env settings c url = (c', GoValue.ok lr)) :
    ((lr.others).map LinkResult.id).Nodup ∧ cacheCanonical c' := by
  rw [processOneLink] at h
  cases hp : parsePRURL url with
  | crash m => rw [hp] at h; injection h with h1 h2; cases h2
  | err e => rw [hp] at h; injection h with h1 h2; cases h2
  | ok triple =>
    rcases triple with ⟨org, repo, id⟩
    rw [hp] at h
    simp only at h
    cases hg : env.getPR org repo id with
    | error e => rw [hg] at h; injection h with h1 h2; cases h2
    | ok pullRequest =>
      rw [hg] at h
      simp only at h
      cases hst : getPRStatus env pullRequest with
      | error e => rw [hst] at h; injection h with h1 h2; cases h2
      | ok prWithStatus =>
        rw [hst] at h
        simp only at h
        by_cases horg : org == settings.downstreamOrg
        · rw [if_pos horg] at h
          injection h with h1 h2
          injection h2 with h3
          subst h1; subst h3
          exact ⟨by simp [LinkResult.others], hc⟩
        · rw [if_neg horg] at h
          by_cases hcl : prWithStatus.status == "closed"
          · rw [if_pos hcl] at h
            injection h with h1 h2
            injection h2 with h3
            subst h1; subst h3
            exact ⟨by simp [LinkResult.others], hc⟩
          · rw [if_neg hcl] at h
            cases hlc : env.listCommits org repo id with
            | error e => rw [hlc] at h; injection h with h1 h2; cases h2
            | ok commits =>
              rw [hlc] at h
              simp only at h
              rcases hpc : processCommits env settings url repo c commits [] [] with ⟨c2, v⟩
              rw [hpc] at h
              cases v with
              | err e => simp only at h; injection h with h1 h2; cases h2
              | crash m => simp only at h; injection h with h1 h2; cases h2
              | ok p =>
                rcases p with ⟨ids, others⟩
                simp only at h
                injection h with h1 h2
                injection h2 with h3
                subst h1; subst h3
                rcases processCommits_inv env settings url repo henv commits c [] [] c2 ids others
                  hc hpc (by simp [othersMatchIDs]) List.nodup_nil with ⟨hinv, hnd, hc2⟩
                constructor
                · rw [LinkResult.others]
                  rw [othersMatchIDs] at hinv
                  rw [hinv]
                  exact List.nodup_reverse.mpr hnd
                · exact hc2

/-! ## The claims -/

/-- C1.  The claim says every caller of `cache.getDetails` for one key gets
an equal snapshot.  The code stores the `repoPRCache` struct value in the map
before filling the local copy's pull request slice, so the first call returns
the fully built snapshot while the second call returns the stored entry,
whose pull request list is still empty (the commits map, shared by
reference, is populated in both).  This theorem evaluates both calls on a
remote with one pull request carrying one commit and exhibits the unequal
snapshots. -/
theorem getDetails_second_call_loses_snapshot :
    (getDetails envOnePage [] "down" "r1").2 =
      Except.ok { pullRequests := [samplePR9], commits := [(9, [sampleCommit])] } ∧
    (getDetails envOnePage (getDetails envOnePage [] "down" "r1").1 "down" "r1").2 =
      Except.ok { pullRequests := [], commits := [(9, [sampleCommit])] } ∧
    ({ pullRequests := [samplePR9], commits := [(9, [sampleCommit])] } : RepoPRCache) ≠
      { pullRequests := [], commits := [(9, [sampleCommit])] } := by
  refine ⟨rfl, rfl, ?_⟩
  intro h
  cases h

/-- C2.  The claim says a failed snapshot build leaves the cache unchanged
for the key and no later call can observe a partial snapshot.  The code
inserts the map entry before fetching; on a remote whose second listing page
fails, the failed first call returns the wrapped error but leaves a stub
entry under the key (empty pull request list, partially filled shared
commits map), and the second call returns that partial snapshot as a
success without retrying. -/
theorem getDetails_failed_build_leaves_stub_entry :
    (getDetails envPageTwoFails [] "down" "r1").2 =
      Except.error "could not get pull requests for down/r1: boom" ∧
    (getDetails envPageTwoFails [] "down" "r1").1 =
      [("down/r1", { pullRequests := [], commits := [(9, [sampleCommit])] })] ∧
    (getDetails envPageTwoFails (getDetails envPageTwoFails [] "down" "r1").1 "down" "r1").2 =
      Except.ok { pullRequests := [], commits := [(9, [sampleCommit])] } :=
  ⟨rfl, rfl, rfl⟩

/-- C3 counterexample.  The claim says a failure on a child does not fail the
parent walk.  Here the root epic "E1" fetches successfully, its only child
"S1" fails to fetch, and `processOneIssue` on the root returns the wrapped
child error instead of a result with the child omitted. -/
theorem processOneIssue_child_failure_fails_parent_example :
    jenvChildFails.getIssue "E1" = Except.ok epicE1 ∧
    (processOneIssue jenvChildFails envNop settingsX 2 [] "E1").2 =
      GoValue.err "could not process S1: error processing issue \"S1\": boom" :=
  ⟨rfl, rfl⟩

/-- C3 amended.  A failure while walking a child fails the parent: when the
root issue fetches as an Epic with no links, the child search succeeds, and
the walk of the first child returns an error, `processOneIssue` on the root
returns that error wrapped — the successful root fetch and any remaining
siblings are abandoned. -/
theorem processOneIssue_child_error_fails_parent
    (jenv : JiraEnv) (env : GithubEnv) (settings : AppSettings) (fuel : Nat)
    (c c2 : Cache) (issueID : String) (issue : Issue) (child : IssueStub)
    (rest : List IssueStub) (e : String)
    (hget : jenv.getIssue issueID = Except.ok issue)
    (htype : issue.typeName = "Epic")
    (hlinks : getLinks issue = [])
    (hsearch : jenv.search ("\"" ++ "Epic Link" ++ "\" = " ++ issueID) = Except.ok (child :: rest))
    (hchild : processOneIssue jenv env settings fuel c child.key = (c2, GoValue.err e)) :
    processOneIssue jenv env settings (fuel + 1) c issueID =
      (c2, GoValue.err ("could not process " ++ child.key ++ ": " ++ e)) := by
  rw [processOneIssue, hget]
  simp only [hlinks, List.isEmpty_nil, if_pos]
  simp only [htype]
  rw [show (("Epic" == "Epic" || "Epic" == "Feature") = true) from rfl]
  simp only [if_pos]
  rw [show (if ("Epic" : String) == "Feature" then "Parent Link" else "Epic Link")
      = "Epic Link" from rfl]
  rw [hsearch]
  simp only
  rw [walkChildren, hchild]

/-- C3 witness: the amended theorem applied to the concrete failing-child
tracker. -/
theorem processOneIssue_child_error_fails_parent_witness :
    processOneIssue jenvChildFails envNop settingsX 2 [] "E1" =
      ([], GoValue.err "could not process S1: error processing issue \"S1\": boom") :=
  processOneIssue_child_error_fails_parent jenvChildFails envNop settingsX 1 [] []
    "E1" epicE1 { key := "S1" } [] "error processing issue \"S1\": boom"
    rfl rfl rfl rfl rfl

/-- C4 counterexample.  The claim says a repository-not-found error from the
downstream commit query is treated as an empty result and never propagated.
On a remote whose query fails with exactly that error for an open upstream
link, `processLinks` returns the wrapped error instead of continuing. -/
theorem processLinks_not_found_propagates_example :
    (processLinks envNotFound settingsX [] [upURL]).2 =
      GoValue.err "could not find downstream pull requests: 404 repository not found" := rfl

/-- C4 amended.  Every error returned by the downstream commit query —
repository-not-found included, since the code inspects no error condition —
aborts the per-commit matching loop with the wrapped error; the
cache-fallback path is never reached for that link. -/
theorem processCommits_query_error_propagates
    (env : GithubEnv) (settings : AppSettings) (url repo : String) (c : Cache)
    (commit : RepositoryCommit) (rest : List RepositoryCommit)
    (otherIDs : List Int) (others : List LinkResult) (e : String)
    (h : env.listPRsWithCommit settings.downstreamOrg repo commit.sha = Except.error e) :
    processCommits env settings url repo c (commit :: rest) otherIDs others =
      (c, GoValue.err ("could not find downstream pull requests: " ++ e)) := by
  rw [processCommits, h]

/-- C4 witness: the amended theorem applied to the not-found remote. -/
theorem processCommits_query_error_propagates_witness :
    processCommits envNotFound settingsX upURL "r1" [] [upCommit] [] [] =
      ([], GoValue.err "could not find downstream pull requests: 404 repository not found") :=
  processCommits_query_error_propagates envNotFound settingsX upURL "r1" [] upCommit [] [] []
    "404 repository not found" rfl

/-- C5 counterexample.  The claim says the child-ID list is deduplicated
before recursing, so subtasks ["A", "A", "B"] would yield child results
[A, B].  The code walks the list as-is: the story's result carries three
children, A twice, in order [A, A, B]. -/
theorem processOneIssue_duplicate_children_example :
    (processOneIssue jenvDupKids envNop settingsX 2 [] "S1").2 =
      GoValue.ok (IssueResult.mk storyDupKids []
        [IssueResult.mk taskA [] [], IssueResult.mk taskA [] [], IssueResult.mk taskB [] []]) ∧
    storyDupKids.subtasks = [{ key := "A" }, { key := "A" }, { key := "B" }] :=
  ⟨rfl, rfl⟩

/-- C5 amended.  The child loop performs no deduplication: a successful walk
of a child list produces exactly one child result per list entry, duplicated
entries included, in list order. -/
theorem walkChildren_ok_length (walker : Cache → String → Cache × GoValue IssueResult) :
    ∀ (l : List IssueStub) (c c' : Cache) (rs : List IssueResult),
      walkChildren walker c l = (c', GoValue.ok rs) → rs.length = l.length := by
  intro l
  induction l with
  | nil =>
    intro c c' rs h
    rw [walkChildren] at h
    injection h with h1 h2
    injection h2 with h3
    simp [← h3]
  | cons child rest ih =>
    intro c c' rs h
    rw [walkChildren] at h
    rcases hw : walker c child.key with ⟨c2, v⟩
    rw [hw] at h
    cases v with
    | err e => injection h with h1 h2; cases h2
    | crash m => injection h with h1 h2; cases h2
    | ok childResult =>
      simp only at h
      rcases hrec : walkChildren walker c2 rest with ⟨c3, v2⟩
      rw [hrec] at h
      cases v2 with
      | err e => injection h with h1 h2; cases h2
      | crash m => injection h with h1 h2; cases h2
      | ok rs2 =>
        injection h with h1 h2
        injection h2 with h3
        rw [← h3]
        simp [ih c2 c3 rs2 hrec]

/-- C5 witness: the amended theorem applied to the duplicated subtask list,
whose walk yields three results for three entries. -/
theorem walkChildren_ok_length_witness :
    ([IssueResult.mk taskA [] [], IssueResult.mk taskA [] [],
      IssueResult.mk taskB [] []] : List IssueResult).length =
      storyDupKids.subtasks.length :=
  walkChildren_ok_length (processOneIssue jenvDupKids envNop settingsX 1)
    storyDupKids.subtasks [] []
    [IssueResult.mk taskA [] [], IssueResult.mk taskA [] [], IssueResult.mk taskB [] []] rfl

/-- C6.  For every upstream link, the downstream match list never carries
two entries with the same review number: the `otherIDs` set guards both the
direct-query and the cache-fallback appends across all commits of the link.
Stated for environments and caches whose pull requests carry canonical HTML
URLs (parsing the URL recovers the pull request's own number, as github
guarantees), since the recorded id of an entry is parsed from that URL. -/
theorem processLinks_others_nodup (env : GithubEnv) (settings : AppSettings) :
    ∀ (links : List String) (c c' : Cache) (results : List LinkResult),
      envCanonical env → cacheCanonical c →
      processLinks env settings c links = (c', GoValue.ok results) →
      ∀ lr ∈ results, ((lr.others).map LinkResult.id).Nodup := by
  intro links
  induction links with
  | nil =>
    intro c c' results _ _ h lr hlr
    rw [processLinks] at h
    injection h with h1 h2
    injection h2 with h3
    rw [← h3] at hlr
    cases hlr
  | cons url rest ih =>
    intro c c' results henv hc h lr hlr
    rw [processLinks] at h
    rcases hone : processOneLink env settings c url with ⟨c2, v⟩
    rw [hone] at h
    cases v with
    | err e => simp only at h; injection h with h1 h2; cases h2
    | crash m => simp only at h; injection h with h1 h2; cases h2
    | ok lr1 =>
      simp only at h
      rcases processOneLink_inv henv hc hone with ⟨hnd1, hc2⟩
      rcases hrec : processLinks env settings c2 rest with ⟨c3, v2⟩
      rw [hrec] at h
      cases v2 with
      | err e => injection h with h1 h2; cases h2
      | crash m => injection h with h1 h2; cases h2
      | ok lrs =>
        injection h with h1 h2
        injection h2 with h3
        rw [← h3] at hlr
        rcases List.mem_cons.mp hlr with he | hm
        · exact he ▸ hnd1
        · exact ih c2 c3 lrs henv hc2 hrec lr hm

/-- C6 witness: on a remote where both commits of the upstream link discover
downstream pull request 9, the theorem applies and the single-entry match
list is duplicate-free. -/
theorem processLinks_others_nodup_witness :
    ((lrSameMatch.others).map LinkResult.id).Nodup :=
  processLinks_others_nodup envSameMatch settingsX [upURL] [] [] [lrSameMatch]
    (by
      constructor
      · intro org repo sha l h pr hpr
        have h2 : Except.ok (ε := String) [downPR9] = Except.ok l := h
        injection h2 with h3
        rw [← h3] at hpr
        rcases List.mem_cons.mp hpr with he | hn
        · exact he ▸ ⟨"down", "r1", rfl⟩
        · cases hn
      · intro org repo l hl
        exact absurd hl (List.not_mem_nil _))
    (by
      intro k entry h
      simp [cacheLookup] at h)
    rfl lrSameMatch (List.mem_cons_self _ _)

/-- C7.  A link outside the downstream org whose resolved status is
"closed" (closed without being merged, since a merge overrides the status)
is recorded with no downstream children, the cache is untouched, and the
result is the same for any environment agreeing only on the review fetch and
merge check — so the commit listing, the downstream commit query and the
snapshot build are never consulted for that link. -/
theorem processOneLink_closed_skips
    (env env2 : GithubEnv) (settings : AppSettings) (c : Cache)
    (url org repo : String) (id : Int) (pr : PullRequest) (ws : PullRequestWithStatus)
    (hgp : env2.getPR = env.getPR) (him : env2.isMerged = env.isMerged)
    (hparse : parsePRURL url = GoValue.ok (org, repo, id))
    (horg : (org == settings.downstreamOrg) = false)
    (hfetch : env.getPR org repo id = Except.ok pr)
    (hstatus : getPRStatus env pr = Except.ok ws)
    (hclosed : ws.status = "closed") :
    processOneLink env2 settings c url = (c, GoValue.ok (LinkResult.mk url org repo id ws [])) := by
  rw [processOneLink, hparse]
  simp only [hgp, hfetch]
  have hst2 : getPRStatus env2 pr = Except.ok ws := by
    rw [getPRStatus, him, ← getPRStatus, hstatus]
  rw [hst2]
  simp only [horg, Bool.false_eq_true, if_neg, not_false_iff]
  rw [hclosed]
  simp

/-- C7 witness: the theorem applied to a closed unmerged upstream link,
against a second remote that disagrees on every endpoint the skip must not
consult. -/
theorem processOneLink_closed_skips_witness :
    processOneLink envClosedB settingsX [] closedURL =
      ([], GoValue.ok (LinkResult.mk closedURL "up" "r1" 2
        { pull := closedPR, status := "closed" } [])) :=
  processOneLink_closed_skips envClosedA envClosedB settingsX [] closedURL "up" "r1" 2
    closedPR { pull := closedPR, status := "closed" } rfl rfl rfl rfl rfl rfl rfl

/-- C8.  `getLinks` returns the pattern matches of the description followed
by those of each comment in original order, deduplicated keeping first
occurrences: it equals the library first-occurrence dedup of the field-order
match list, carries no duplicates, is a sublist of that list (preserving
relative order), and keeps exactly its members.  An empty result is an
ordinary value of the total function. -/
theorem getLinks_characterization (issue : Issue) :
    getLinks issue = (linkMatchesInFieldOrder issue).eraseDups ∧
    (getLinks issue).Nodup ∧
    List.Sublist (getLinks issue) (linkMatchesInFieldOrder issue) ∧
    ∀ s : String, s ∈ getLinks issue ↔ s ∈ linkMatchesInFieldOrder issue := by
  rw [getLinks_eq_uniqueStrings]
  refine ⟨uniqueStrings_eq_eraseDups _, nodup_uniqueStringsAux _ _,
    sublist_uniqueStringsAux _ _, ?_⟩
  intro s
  constructor
  · exact mem_of_mem_uniqueStringsAux
  · intro hmem
    exact mem_uniqueStringsAux_of_mem hmem (List.not_mem_nil s)

/-- C10 counterexample.  The claim says every URL `processLinks` hands to
`parsePRURL` satisfies the match precondition.  `processLinks` also parses
the HTML URLs of API-returned downstream candidates; on a remote returning a
pull request whose HTML URL does not match the pattern, the run crashes on
the nil-submatch indexing. -/
theorem processLinks_crash_on_bad_api_url_example :
    (processLinks envBadURL settingsX [] [upURL]).2 =
      GoValue.crash "runtime error: index out of range" := rfl

/-- C10 amended.  For the URLs that originate from `getLinks` — the links
`processLinks` iterates — the precondition does hold: every extracted link
is itself a full pattern match, so `parsePRURL` never crashes on it and can
fail only in the integer conversion of the id group.  The guarantee does not
extend to the parse of API-returned HTML URLs. -/
theorem parsePRURL_extracted_link_no_crash (issue : Issue) (url : String)
    (h : url ∈ getLinks issue) : (parsePRURL url).isCrash = false := by
  rw [getLinks_eq_uniqueStrings] at h
  have hraw := mem_of_mem_uniqueStringsAux h
  rcases mem_linkMatches_emitted hraw with ⟨o, r, i, heq, hok⟩
  rw [heq]
  exact parsePRURL_matchChars_no_crash hok

/-- C10 witness: the amended theorem applied to an issue whose description
carries one link. -/
theorem parsePRURL_extracted_link_no_crash_witness :
    (parsePRURL upURL).isCrash = false :=
  parsePRURL_extracted_link_no_crash issueWithLink upURL
    (by
      rw [show getLinks issueWithLink = [upURL] from rfl]
      exact List.mem_cons_self _ _)
